import Mathlib

/-!
Verification of the job admission, queueing and worker-coordination subsystem
of the ttb-verifier repository.

The development shallowly embeds the Python sources:

* `app/queue_manager.py` (`QueueManager`): a SQLite table `verify_jobs` is
  modelled as a `List Job`; each SQL statement becomes an explicit list
  transformation.  `UPDATE ... WHERE` is `updateWhere`, `SELECT ... ORDER BY
  created_at ASC LIMIT 1` is `selectPending`, `DELETE ... WHERE` is a filter.
  Timestamps (Python `time.time()` floats) are modelled as `Nat` ticks: all the
  code ever does with them is compare and copy them.
* `app/job_manager.py` (`JobManager`): the per-job JSON files are modelled as a
  `List BatchJob`; only `cleanup_old_jobs` matters for the claims.
* `app/ocr_backends.py` (`OllamaOCR`): `extract_text` / `_do_extract` become a
  total function over an `OcrEnv` describing the environment (health sentinel,
  flock availability over time, image presence, backend outcome).  The flock
  polling loop (poll every 0.2 s until a 30 s deadline) is modelled in tenths
  of a second with one structural recursion step per poll attempt.  A Python
  exception raised by the backend call is a `BackendOutcome.raises` value with
  the exception's type name and message; the string-sniffing classification of
  `_do_extract`'s `except` block is `classify_error_type`.
* `app/worker.py` (`run_worker` body) and `app/label_validator.py`
  (`validate_label`'s OCR-failure branch): `validate_label_result` and
  `worker_report`.
-/

namespace TTB

/-- Job status column of the `verify_jobs` table (`pending | processing |
completed | failed | cancelled`). -/
inductive Status where
  | pending
  | processing
  | completed
  | failed
  | cancelled
deriving DecidableEq, Repr

/-- A terminal status (`completed`, `failed`, `cancelled`), as enumerated in
`cleanup_old_jobs`' `status IN ('completed', 'failed', 'cancelled')`. -/
def Status.isTerminal : Status → Bool
  | .completed => true
  | .failed => true
  | .cancelled => true
  | _ => false

/-- The part of a stored verification result that the claims talk about: the
`status` key (`"COMPLIANT"`, `"ERROR"`, ...) and the optional `error` key of
the dict produced by `LabelValidator.validate_label`.  The queue stores it
JSON-encoded in the `result` column; the encoding is irrelevant here. -/
structure VResult where
  status : String
  error : Option String
deriving DecidableEq, Repr

/-- One row of the `verify_jobs` table (`queue_manager.py`, table schema in the
module docstring). -/
structure Job where
  id : String
  status : Status
  attempts : Nat
  max_attempts : Nat
  image_path : String
  ground_truth : Option String
  result : Option VResult
  error : Option String
  created_at : Nat
  updated_at : Nat
  completed_at : Option Nat
deriving DecidableEq, Repr

/-- The `verify_jobs` table, in insertion (rowid) order. -/
abbrev Store := List Job

/-- `SELECT * FROM verify_jobs WHERE id = ?` with `id` as primary key:
the first (and, under `IdsNodup`, only) row with this id. -/
def getJob (s : Store) (id : String) : Option Job :=
  s.find? (fun j => j.id == id)

/-- Primary-key property of the table: all `id` values are distinct. -/
def IdsNodup (s : Store) : Prop :=
  (s.map (fun j => j.id)).Nodup

instance (s : Store) : Decidable (IdsNodup s) :=
  inferInstanceAs (Decidable (List.Nodup _))

/-- `UPDATE verify_jobs SET ... WHERE ...`: apply `f` to every row satisfying
`p`, leave the rest untouched. -/
def updateWhere (s : Store) (p : Job → Bool) (f : Job → Job) : Store :=
  s.map fun j => if p j then f j else j

/-- `QueueManager.enqueue`: `INSERT INTO verify_jobs (...) VALUES
(?, 'pending', 0, ?, ?, ?, NULL, NULL, ?, ?)`.  Inserting a duplicate primary
key raises `IntegrityError` and the transaction is rolled back, so the store
is unchanged in that case. -/
def enqueue (s : Store) (id image_path : String) (ground_truth : Option String)
    (maxAttempts now : Nat) : Store :=
  if s.any (fun j => j.id == id) then s
  else s ++ [{ id := id, status := .pending, attempts := 0,
               max_attempts := maxAttempts, image_path := image_path,
               ground_truth := ground_truth, result := none, error := none,
               created_at := now, updated_at := now, completed_at := none }]

/-- The `SELECT` of `QueueManager.dequeue`: `SELECT * FROM verify_jobs WHERE
status = 'pending' ORDER BY created_at ASC LIMIT 1`.  Ties on `created_at` go
to the earlier row (rowid order). -/
def selectPending (s : Store) : Option Job :=
  match s.filter (fun j => j.status == Status.pending) with
  | [] => none
  | x :: xs => some (xs.foldl (fun a b => if b.created_at < a.created_at then b else a) x)

/-- The dict `QueueManager.dequeue` returns: the selected row with
`job["attempts"] += 1` and `job["status"] = "processing"` patched in. -/
def jobView (j : Job) : Job :=
  { j with attempts := j.attempts + 1, status := .processing }

/-- The `UPDATE` of `QueueManager.dequeue`: `UPDATE verify_jobs SET status =
'processing', attempts = attempts + 1, updated_at = ? WHERE id = ?`. -/
def dequeueUpdate (s : Store) (id : String) (now : Nat) : Store :=
  updateWhere s (fun j => j.id == id)
    (fun j => { j with status := .processing, attempts := j.attempts + 1, updated_at := now })

/-- `QueueManager.dequeue` run to completion without interference: the
`SELECT` followed by the `UPDATE`, returning the patched dict and the new
table contents. -/
def dequeue (s : Store) (now : Nat) : Option Job × Store :=
  match selectPending s with
  | none => (none, s)
  | some row => (some (jobView row), dequeueUpdate s row.id now)

/-- `QueueManager.complete`: `UPDATE verify_jobs SET status = 'completed',
result = ?, error = NULL, updated_at = ?, completed_at = ? WHERE id = ?`.
Note that the `WHERE` clause does not check the current status. -/
def complete (s : Store) (id : String) (result : VResult) (now : Nat) : Store :=
  updateWhere s (fun j => j.id == id)
    (fun j => { j with status := .completed, result := some result, error := none,
                       updated_at := now, completed_at := some now })

/-- `QueueManager.fail`: reads `attempts, max_attempts` of the row; if
`attempts < max_attempts` the job is put back to `pending` with the error
recorded, otherwise it is marked `failed` with `completed_at` stamped.
Unknown ids are a logged no-op.  Neither `UPDATE` checks the current status. -/
def fail (s : Store) (id error : String) (now : Nat) : Store :=
  match getJob s id with
  | none => s
  | some row =>
    if row.attempts < row.max_attempts then
      updateWhere s (fun j => j.id == id)
        (fun j => { j with status := .pending, error := some error, updated_at := now })
    else
      updateWhere s (fun j => j.id == id)
        (fun j => { j with status := .failed, error := some error, updated_at := now,
                           completed_at := some now })

/-- `QueueManager.cancel`: `UPDATE verify_jobs SET status = 'cancelled',
updated_at = ? WHERE id = ? AND status = 'pending'`; returns
`cursor.rowcount > 0`. -/
def cancel (s : Store) (id : String) (now : Nat) : Bool × Store :=
  let hits := fun j => j.id == id && j.status == Status.pending
  (s.countP hits > 0,
   updateWhere s hits (fun j => { j with status := .cancelled, updated_at := now }))

/-- The `DELETE` predicate of `QueueManager.cleanup_old_jobs`: `status IN
('completed', 'failed', 'cancelled') AND updated_at < cutoff` where `cutoff =
time.time() - retention_seconds`.  Note: the code compares `updated_at`, not
`completed_at`. -/
def qmExpired (j : Job) (cutoff : Nat) : Bool :=
  j.status.isTerminal && decide (j.updated_at < cutoff)

/-- `QueueManager.cleanup_old_jobs`: deletes matching rows, returns
`cursor.rowcount` (the number of deleted rows) and the remaining table. -/
def cleanup_old_jobs (s : Store) (cutoff : Nat) : Nat × Store :=
  ((s.filter (fun j => qmExpired j cutoff)).length,
   s.filter (fun j => !(qmExpired j cutoff)))

/-- `QueueManager.queue_depth`: `SELECT COUNT(*) FROM verify_jobs WHERE
status = 'pending'`. -/
def queue_depth (s : Store) : Nat :=
  (s.filter (fun j => j.status == Status.pending)).length

/-- One call into the `QueueManager` public API, with the wall-clock instant
at which it runs.  `maxAttempts` of `enqueue` is supplied by `step` below,
mirroring `self.max_attempts` fixed at manager construction. -/
inductive Op where
  | enqueue (id image_path : String) (ground_truth : Option String) (now : Nat)
  | dequeue (now : Nat)
  | complete (id : String) (result : VResult) (now : Nat)
  | fail (id error : String) (now : Nat)
  | cancel (id : String) (now : Nat)
  | cleanup (cutoff : Nat)
deriving DecidableEq, Repr

/-- Effect of one API call on the table, for a manager constructed with
`max_attempts = m`. -/
def step (m : Nat) (s : Store) : Op → Store
  | .enqueue id img gt now => enqueue s id img gt m now
  | .dequeue now => (dequeue s now).2
  | .complete id r now => complete s id r now
  | .fail id e now => fail s id e now
  | .cancel id now => (cancel s id now).2
  | .cleanup cutoff => (cleanup_old_jobs s cutoff).2

/-- The table after a sequence of API calls against an initially empty table
(the freshly created `verify_jobs` table). -/
def run (m : Nat) (ops : List Op) : Store :=
  ops.foldl (step m) []

/-- The id of the job claimed by a `dequeue` call, if any. -/
def claimedId (p : Option Job × Store) : Option String :=
  p.1.map (fun j => j.id)

/-- Two `QueueManager.dequeue` calls interleaved so that both run their
`SELECT` before either runs its `UPDATE`.  This schedule is reachable in the
source: the Python `sqlite3` module executes the `SELECT` in autocommit mode
(only the subsequent `UPDATE` opens a write transaction), and the `UPDATE`'s
`WHERE id = ?` clause does not re-check `status = 'pending'`, so the second
caller's `UPDATE` applies on top of the first caller's committed one.
Returns (caller 1's dict, caller 2's dict, final table). -/
def dequeue_select_race (s : Store) (t1 t2 : Nat) :
    Option Job × Option Job × Store :=
  let r1 := selectPending s
  let r2 := selectPending s
  let s1 := match r1 with | none => s | some row => dequeueUpdate s row.id t1
  let s2 := match r2 with | none => s1 | some row => dequeueUpdate s1 row.id t2
  (r1.map jobView, r2.map jobView, s2)

namespace JobManager

/-- One batch job as persisted by `app/job_manager.py` in
`/app/tmp/jobs/{job_id}.json` (dataclass `BatchJob`); datetimes are modelled
as `Nat` ticks like the queue's timestamps. -/
structure BatchJob where
  job_id : String
  status : Status
  created_at : Nat
  updated_at : Nat
  total_images : Nat
  processed_images : Nat
  completed_at : Option Nat
  error : Option String
deriving DecidableEq, Repr

/-- The deletion test of `JobManager.cleanup_old_jobs`: the job's status is
terminal and `job.completed_at` is set (truthy) and older than the cutoff
`datetime.utcnow() - timedelta(hours=retention_hours)`. -/
def expired (b : BatchJob) (cutoff : Nat) : Bool :=
  b.status.isTerminal &&
    (match b.completed_at with
     | some u => decide (u < cutoff)
     | none => false)

/-- `JobManager.cleanup_old_jobs`: scans all job files, deletes the expired
ones, returns the number deleted and the surviving jobs. -/
def cleanup_old_jobs (bs : List BatchJob) (cutoff : Nat) : Nat × List BatchJob :=
  ((bs.filter (fun b => expired b cutoff)).length,
   bs.filter (fun b => !(expired b cutoff)))

end JobManager

/-- Whether `needle` matches a leading segment of `hay` (character lists). -/
def charsMatch : List Char → List Char → Bool
  | [], _ => true
  | _ :: _, [] => false
  | a :: as, b :: bs => decide (a = b) && charsMatch as bs

/-- Whether `needle` occurs contiguously anywhere in `hay`. -/
def charsFind (needle : List Char) : List Char → Bool
  | [] => needle.isEmpty
  | c :: rest => charsMatch needle (c :: rest) || charsFind needle rest

/-- The Python substring test `needle in hay`. -/
def strContains (hay needle : String) : Bool :=
  charsFind needle.data hay.data

/-- The Python `str.lower()` (ASCII case folding suffices for the sniffed
keywords). -/
def strLower (s : String) : String :=
  String.mk (s.data.map Char.toLower)

/-- The error classification of `OllamaOCR._do_extract`'s `except` block:
`is_timeout` is tested first (`"ReadTimeout"`/`"ConnectTimeout"`/
`"TimeoutException"` in the exception type name, or `"timeout"` in the lowered
message), then `is_connection` (`"ConnectError"`/`"RemoteProtocolError"` in
the type name, or `"Cannot connect"` in the message); anything else is
`"error"`.  `ename` is Python's `type(e).__name__`, `emsg` is `str(e)`. -/
def classify_error_type (ename emsg : String) : String :=
  if strContains ename "ReadTimeout" || strContains ename "ConnectTimeout" ||
      strContains ename "TimeoutException" || strContains (strLower emsg) "timeout" then
    "timeout"
  else if strContains ename "ConnectError" || strContains ename "RemoteProtocolError" ||
      strContains emsg "Cannot connect" then
    "connection"
  else
    "error"

/-- `time.sleep(0.2)` poll interval of the flock wait loop, in tenths of a
second. -/
def pollIntervalTenths : Nat := 2

/-- `_LOCK_WAIT_SECONDS = 30`, in tenths of a second. -/
def lockWaitTenths : Nat := 300

/-- Number of `flock(..., LOCK_EX | LOCK_NB)` attempts the wait loop makes
before `time.time() < lock_deadline` turns false: one attempt every 0.2 s
across a 30 s window. -/
def lockWaitPolls : Nat := lockWaitTenths / pollIntervalTenths

/-- `connect=10.0` of the `httpx.Timeout` built in `OllamaOCR.__init__`:
the fixed connect-phase bound, in seconds. -/
def connectTimeoutSeconds : Nat := 10

/-- The `timeout` default of `OllamaOCR.__init__` (`timeout: int = 60`),
used as the `read=` first-output bound of the same `httpx.Timeout`. -/
def defaultOllamaTimeoutSeconds : Nat := 60

/-- The flock wait loop of `OllamaOCR.extract_text`: starting at time `t`
(tenths of a second), try the non-blocking exclusive flock; on
`BlockingIOError` sleep one poll interval and try again, for at most `n`
attempts (the loop stops once the 30 s deadline passes).  Returns the time of
the successful acquisition, or `none` if every attempt failed. -/
def acquirePolls (avail : Nat → Bool) : Nat → Nat → Option Nat
  | _, 0 => none
  | t, n + 1 => if avail t then some t else acquirePolls avail (t + pollIntervalTenths) n

/-- What the streaming `self._client.chat(...)` call does: either yields the
full concatenated text, or raises an exception with type name `ename` and
message `emsg`. -/
inductive BackendOutcome where
  | ok (text : String)
  | raises (ename emsg : String)
deriving DecidableEq, Repr

/-- The environment a single `OllamaOCR.extract_text` call runs in. -/
structure OcrEnv where
  /-- Whether the sentinel file `/etc/ollama_health/HEALTHY` exists. -/
  sentinelHealthy : Bool
  /-- Whether the non-blocking flock attempt at time `t` (tenths of a second)
  succeeds. -/
  lockAvail : Nat → Bool
  /-- Whether the image file exists. -/
  imageExists : Bool
  /-- Path of the image, used in the missing-image error message. -/
  image_path : String
  /-- Outcome of the backend call. -/
  backend : BackendOutcome
  /-- `self.host`. -/
  host : String
  /-- `self.timeout` (seconds). -/
  timeoutS : Nat
  /-- Time at which the lock wait starts, in tenths of a second. -/
  startTime : Nat

/-- The result dict of `extract_text`: only the keys the claims mention
(`success`, `raw_text`, `error`, `error_type`); a missing key is `none`. -/
structure OcrResult where
  success : Bool
  raw_text : Option String
  error : Option String
  error_type : Option String
deriving DecidableEq, Repr

/-- The `except Exception` tail of `OllamaOCR._do_extract`: classify the
exception and build the corresponding error dict. -/
def raisesDict (env : OcrEnv) (ename emsg : String) : OcrResult :=
  if classify_error_type ename emsg = "timeout" then
    { success := false, raw_text := none,
      error := some ("Ollama request timed out after " ++ toString env.timeoutS ++
                     "s. Please retry."),
      error_type := some "timeout" }
  else if classify_error_type ename emsg = "connection" then
    { success := false, raw_text := none,
      error := some ("Cannot connect to Ollama at " ++ env.host ++ ": " ++ emsg),
      error_type := some "connection" }
  else
    { success := false, raw_text := none,
      error := some ("Ollama extraction error: " ++ emsg),
      error_type := some "error" }

/-- `OllamaOCR._do_extract`: check the image exists, run the streaming chat
call, and on an exception classify it and build the corresponding error dict
(the missing-image dict carries no `error_type` key). -/
def do_extract (env : OcrEnv) : OcrResult :=
  if env.imageExists = false then
    { success := false, raw_text := none,
      error := some ("Image not found: " ++ env.image_path), error_type := none }
  else
    match env.backend with
    | .ok text =>
        { success := true, raw_text := some text, error := none, error_type := none }
    | .raises ename emsg => raisesDict env ename emsg

/-- `OllamaOCR.extract_text`: sentinel check, then the bounded flock wait,
then `_do_extract` under the lock with a `finally` that releases it.  The
second component is whether the flock is still held when the call returns:
the sentinel path never opens the lock file, the busy path closes the fd
without having acquired the lock, and the success path releases it in the
`finally`, so it is `false` on every path.  Python exceptions never escape:
every branch produces a result dict. -/
def extract_text (env : OcrEnv) : OcrResult × Bool :=
  if env.sentinelHealthy = false then
    ({ success := false, raw_text := none,
       error := some "Ollama model not ready (sentinel /etc/ollama_health/HEALTHY absent — cron pre-warm pending)",
       error_type := none }, false)
  else
    match acquirePolls env.lockAvail env.startTime lockWaitPolls with
    | none =>
        ({ success := false, raw_text := none,
           error := some "Ollama is busy. Please retry shortly.",
           error_type := some "busy" }, false)
    | some _ => (do_extract env, false)

/-- The OCR step of `LabelValidator.validate_label` (lines 91–99): when the
OCR result has `success = False`, the method returns an `ERROR` dict carrying
`ocr_result.get('error', 'OCR extraction failed')` — it does not raise.
Otherwise the downstream pipeline's result (`pipeline`, out of scope here) is
returned. -/
def validate_label_result (ocr : OcrResult) (pipeline : VResult) : VResult :=
  if ocr.success = false then
    { status := "ERROR", error := some (ocr.error.getD "OCR extraction failed") }
  else pipeline

/-- How one claimed job's processing ends inside the Worker's `try`:
`process_job` either returns a result dict or raises. -/
inductive ProcOutcome where
  | ret (r : VResult)
  | exc (msg : String)
deriving DecidableEq, Repr

/-- The keyword list `run_worker` sniffs `str(exc).lower()` with to decide
whether to discard and rebuild the validator. -/
def rebuild_keywords : List String :=
  ["timeout", "connect", "connection", "read error", "eof"]

/-- `run_worker`'s client-rebuild test: any of the keywords occurs in the
lowered exception message. -/
def should_rebuild_validator (err : String) : Bool :=
  rebuild_keywords.any (fun kw => strContains (strLower err) kw)

/-- The reporting tail of `run_worker`'s loop body (worker.py lines 142–165):
if `process_job` returned a dict the worker calls `queue.complete`, and only
if it raised does the worker call `queue.fail`. -/
def worker_report (q : Store) (jobId : String) (out : ProcOutcome) (now : Nat) : Store :=
  match out with
  | .ret r => complete q jobId r now
  | .exc m => fail q jobId m now

/-- Fixture: a freshly enqueued pending job. -/
def pendingJob : Job :=
  { id := "a", status := .pending, attempts := 0, max_attempts := 3, image_path := "p",
    ground_truth := none, result := none, error := none, created_at := 0, updated_at := 0,
    completed_at := none }

/-- Fixture: a claimed job mid-processing. -/
def processingJob : Job :=
  { pendingJob with id := "b", status := .processing, attempts := 1, updated_at := 1 }

/-- Fixture: a cancelled job (note `cancel` never stamps `completed_at`). -/
def cancelledJob : Job :=
  { pendingJob with id := "c", status := .cancelled, updated_at := 2 }

/-- Fixture: an old cancelled job, aged past any retention cutoff. -/
def oldCancelledRow : Job :=
  { pendingJob with id := "d", status := .cancelled }

/-- Fixture: a finished batch job of the file-based `JobManager` store. -/
def batchDone : JobManager.BatchJob :=
  { job_id := "j1", status := .completed, created_at := 0, updated_at := 5,
    total_images := 1, processed_images := 1, completed_at := some 5, error := none }

/-- Fixture: job A is enqueued, claimed, fails transiently and is requeued at
`updated_at = 4`, while job B arrived in between with `created_at = 3`. -/
def requeueScenario : List Op :=
  [Op.enqueue "A" "p" none 1, Op.dequeue 2, Op.enqueue "B" "q" none 3,
   Op.fail "A" "transient" 4]

/-- Fixture: the requeued record of job A after `requeueScenario`. -/
def requeuedA : Job :=
  { id := "A", status := .pending, attempts := 1, max_attempts := 3, image_path := "p",
    ground_truth := none, result := none, error := some "transient", created_at := 1,
    updated_at := 4, completed_at := none }

/-- Fixture: a healthy environment whose flock is never available (another
process holds it for longer than the whole wait window). -/
def busyEnv : OcrEnv :=
  { sentinelHealthy := true, lockAvail := fun _ => false, imageExists := true,
    image_path := "p", backend := .ok "text", host := "http://ollama:11434",
    timeoutS := 12, startTime := 0 }

/-- Fixture: the health sentinel is absent (model not pre-warmed). -/
def sentinelDownEnv : OcrEnv :=
  { sentinelHealthy := false, lockAvail := fun _ => true, imageExists := true,
    image_path := "p", backend := .ok "text", host := "http://ollama:11434",
    timeoutS := 60, startTime := 0 }

/-- Fixture: healthy and unlocked, but the image file does not exist. -/
def missingImageEnv : OcrEnv :=
  { sentinelDownEnv with sentinelHealthy := true, imageExists := false }

/-- Fixture: healthy and unlocked, but the streaming chat call raises
`httpx.ReadTimeout` (no first token within the read bound). -/
def readTimeoutEnv : OcrEnv :=
  { sentinelDownEnv with sentinelHealthy := true,
                         backend := .raises "ReadTimeout" "The read operation timed out",
                         timeoutS := 12 }

/-- Fixture: enqueue one job under `max_attempts = 3` and claim it. -/
def claimOps : List Op := [Op.enqueue "a" "p" none 0, Op.dequeue 1]

/-- Fixture: the claimed record after `claimOps` (attempt 1 of 3). -/
def claimedJobA : Job :=
  { id := "a", status := .processing, attempts := 1, max_attempts := 3, image_path := "p",
    ground_truth := none, result := none, error := none, created_at := 0, updated_at := 1,
    completed_at := none }

/-- Fixture: the `ERROR` result dict `validate_label` builds from a timed-out
OCR attempt (12 s read bound). -/
def timeoutErrorResult : VResult :=
  { status := "ERROR", error := some "Ollama request timed out after 12s. Please retry." }

/-- Fixture: the record after the worker `complete`s the timed-out attempt. -/
def completedWithError : Job :=
  { claimedJobA with status := .completed, result := some timeoutErrorResult,
                     updated_at := 2, completed_at := some 2 }

/-- Fixture: enqueue one job under `max_attempts = 1` and claim it. -/
def oneAttemptOps : List Op := [Op.enqueue "a" "p" none 0, Op.dequeue 1]

/-- Fixture: the claimed record after `oneAttemptOps`. -/
def claimedOne : Job :=
  { id := "a", status := .processing, attempts := 1, max_attempts := 1, image_path := "p",
    ground_truth := none, result := none, error := none, created_at := 0, updated_at := 1,
    completed_at := none }

/-- Fixture: the record after `fail` hits the ceiling on `claimedOne`. -/
def failedOne : Job :=
  { claimedOne with status := .failed, error := some "boom", updated_at := 2,
                    completed_at := some 2 }

/-- Per-row part of the table invariant: the attempt counter never exceeds the
ceiling, and a row that is still claimable has at least one attempt left. -/
def JobOK (j : Job) : Prop :=
  j.attempts ≤ j.max_attempts ∧ (j.status = .pending → j.attempts < j.max_attempts)

/-- Table invariant: every row is `JobOK` and ids are primary-key-unique. -/
def Inv (s : Store) : Prop :=
  (∀ j ∈ s, JobOK j) ∧ IdsNodup s

theorem eq_of_mem_of_id_eq {s : Store} (h : IdsNodup s) {j k : Job}
    (hj : j ∈ s) (hk : k ∈ s) (hid : j.id = k.id) : j = k := by
  induction s with
  | nil => cases hj
  | cons a t ih =>
    simp only [IdsNodup, List.map_cons, List.nodup_cons] at h
    rcases List.mem_cons.mp hj with rfl | hj'
    · rcases List.mem_cons.mp hk with rfl | hk'
      · rfl
      · exact absurd (hid ▸ List.mem_map_of_mem (fun x => x.id) hk') h.1
    · rcases List.mem_cons.mp hk with rfl | hk'
      · exact absurd (hid ▸ List.mem_map_of_mem (fun x => x.id) hj') h.1
      · exact ih h.2 hj' hk'

theorem getJob_eq_some_of_mem {s : Store} (h : IdsNodup s) {j : Job} (hj : j ∈ s) :
    getJob s j.id = some j := by
  induction s with
  | nil => cases hj
  | cons a t ih =>
    simp only [IdsNodup, List.map_cons, List.nodup_cons] at h
    rcases List.mem_cons.mp hj with rfl | hj'
    · simp [getJob, List.find?]
    · have hne : (a.id == j.id) = false := by
        refine beq_eq_false_iff_ne.mpr fun he => h.1 ?_
        exact he ▸ List.mem_map_of_mem (fun x => x.id) hj'
      simpa [getJob, List.find?, hne] using ih h.2 hj'

theorem mem_updateWhere {s : Store} {p : Job → Bool} {f : Job → Job} {k : Job}
    (hk : k ∈ updateWhere s p f) :
    ∃ j ∈ s, k = if p j then f j else j := by
  rcases List.mem_map.mp hk with ⟨j, hj, he⟩
  exact ⟨j, hj, he.symm⟩

theorem updateWhere_map_id {s : Store} {p : Job → Bool} {f : Job → Job}
    (hf : ∀ j, (f j).id = j.id) :
    (updateWhere s p f).map (fun j => j.id) = s.map (fun j => j.id) := by
  induction s with
  | nil => rfl
  | cons a t ih =>
    simp only [updateWhere, List.map_cons] at ih ⊢
    by_cases hp : p a = true
    · simp [hp, hf a, ih]
    · have hp' : p a = false := by simpa using hp
      simp [hp', ih]

theorem IdsNodup.updateWhere {s : Store} (h : IdsNodup s) {p : Job → Bool}
    {f : Job → Job} (hf : ∀ j, (f j).id = j.id) : IdsNodup (TTB.updateWhere s p f) := by
  rw [IdsNodup, updateWhere_map_id hf]; exact h

theorem IdsNodup.filterJobs {s : Store} (h : IdsNodup s) (p : Job → Bool) :
    IdsNodup (s.filter p) :=
  List.Nodup.sublist ((List.filter_sublist s).map fun j => j.id) h

theorem updateWhere_eq_self {s : Store} {p : Job → Bool} {f : Job → Job}
    (h : ∀ j ∈ s, p j = false) : updateWhere s p f = s := by
  induction s with
  | nil => rfl
  | cons a t ih =>
    simp only [updateWhere, List.map_cons]
    rw [h a (List.mem_cons_self a t)]
    simp only [Bool.false_eq_true, if_false]
    exact congrArg _ (ih fun j hj => h j (List.mem_cons_of_mem a hj))

theorem jobOK_updateWhere {s : Store} (hok : ∀ j ∈ s, JobOK j) {p : Job → Bool}
    {f : Job → Job} (hf : ∀ j ∈ s, p j = true → JobOK j → JobOK (f j)) :
    ∀ k ∈ updateWhere s p f, JobOK k := by
  intro k hk
  rcases mem_updateWhere hk with ⟨j, hj, rfl⟩
  by_cases hp : p j = true
  · simpa [hp] using hf j hj hp (hok j hj)
  · have hp' : p j = false := by simpa using hp
    simpa [hp'] using hok j hj

theorem foldlCreatedMin_mem (x : Job) (xs : List Job) :
    xs.foldl (fun a b => if b.created_at < a.created_at then b else a) x ∈ x :: xs := by
  induction xs generalizing x with
  | nil => simp
  | cons y ys ih =>
    simp only [List.foldl_cons]
    rcases List.mem_cons.mp (ih (if y.created_at < x.created_at then y else x)) with he | hm
    · rw [he]
      split
      · exact List.mem_cons_of_mem _ (List.mem_cons_self _ _)
      · exact List.mem_cons_self _ _
    · exact List.mem_cons_of_mem _ (List.mem_cons_of_mem _ hm)

theorem foldlCreatedMin_le (x : Job) (xs : List Job) :
    ∀ k ∈ x :: xs,
      (xs.foldl (fun a b => if b.created_at < a.created_at then b else a) x).created_at ≤
        k.created_at := by
  induction xs generalizing x with
  | nil =>
    intro k hk
    rcases List.mem_singleton.mp hk with rfl
    exact Nat.le_refl _
  | cons y ys ih =>
    intro k hk
    simp only [List.foldl_cons]
    have hfx : (if y.created_at < x.created_at then y else x).created_at ≤ x.created_at := by
      split <;> omega
    have hfy : (if y.created_at < x.created_at then y else x).created_at ≤ y.created_at := by
      split <;> omega
    have hhead := ih (if y.created_at < x.created_at then y else x) _
      (List.mem_cons_self _ _)
    rcases List.mem_cons.mp hk with rfl | hk'
    · exact Nat.le_trans hhead hfx
    rcases List.mem_cons.mp hk' with rfl | hk''
    · exact Nat.le_trans hhead hfy
    · exact ih _ k (List.mem_cons_of_mem _ hk'')

theorem selectPending_eq_some {s : Store} {r : Job} (h : selectPending s = some r) :
    r ∈ s ∧ r.status = .pending ∧
      ∀ k ∈ s, k.status = .pending → r.created_at ≤ k.created_at := by
  rw [selectPending] at h
  rcases hfil : s.filter (fun j => j.status == Status.pending) with _ | ⟨x, xs⟩
  · rw [hfil] at h; cases h
  · rw [hfil] at h
    injection h with h
    subst h
    have hmem := foldlCreatedMin_mem x xs
    rw [← hfil] at hmem
    refine ⟨(List.mem_filter.mp hmem).1, by simpa using (List.mem_filter.mp hmem).2, ?_⟩
    intro k hk hkp
    have hkf : k ∈ x :: xs := by
      rw [← hfil]; exact List.mem_filter.mpr ⟨hk, by simp [hkp]⟩
    exact foldlCreatedMin_le x xs k hkf

theorem inv_enqueue {s : Store} (h : Inv s) {m : Nat} (hm : 1 ≤ m)
    (id img : String) (gt : Option String) (now : Nat) :
    Inv (enqueue s id img gt m now) := by
  rcases h with ⟨hok, hnd⟩
  rw [enqueue]
  split
  · exact ⟨hok, hnd⟩
  · rename_i hguard
    constructor
    · intro j hj
      rcases List.mem_append.mp hj with hj' | hj'
      · exact hok j hj'
      · rcases List.mem_singleton.mp hj' with rfl
        exact ⟨Nat.zero_le _, fun _ => hm⟩
    · rw [IdsNodup, List.map_append, List.nodup_append]
      refine ⟨hnd, by simp, ?_⟩
      intro a ha hb
      simp only [List.map_cons, List.map_nil, List.mem_singleton] at hb
      rcases List.mem_map.mp ha with ⟨j, hj, hje⟩
      apply hguard
      simp only [List.any_eq_true]
      exact ⟨j, hj, by simp [hje, hb]⟩

theorem inv_dequeue {s : Store} (h : Inv s) (now : Nat) : Inv (dequeue s now).2 := by
  rcases h with ⟨hok, hnd⟩
  rw [dequeue]
  rcases hsel : selectPending s with _ | row
  · exact ⟨hok, hnd⟩
  · rcases selectPending_eq_some hsel with ⟨hmem, hpend, _⟩
    refine ⟨?_, hnd.updateWhere fun j => rfl⟩
    apply jobOK_updateWhere hok
    intro j hj hp hOK
    have hid : j.id = row.id := by simpa using hp
    have hjrow : j = row := eq_of_mem_of_id_eq hnd hj hmem hid
    subst hjrow
    have hlt : j.attempts < j.max_attempts := hOK.2 hpend
    exact ⟨hlt, fun hcon => by simp at hcon⟩

theorem inv_complete {s : Store} (h : Inv s) (id : String) (r : VResult) (now : Nat) :
    Inv (complete s id r now) := by
  rcases h with ⟨hok, hnd⟩
  refine ⟨?_, hnd.updateWhere fun j => rfl⟩
  apply jobOK_updateWhere hok
  intro j hj hp hOK
  exact ⟨hOK.1, fun hcon => by simp at hcon⟩

theorem fail_eq_of_getJob_none {s : Store} {id : String}
    (hget : getJob s id = none) (err : String) (now : Nat) :
    fail s id err now = s := by
  rw [fail.eq_def, hget]

theorem fail_eq_of_getJob_some {s : Store} {id : String} {row : Job}
    (hget : getJob s id = some row) (err : String) (now : Nat) :
    fail s id err now =
      if row.attempts < row.max_attempts then
        updateWhere s (fun j => j.id == id)
          (fun j => { j with status := .pending, error := some err, updated_at := now })
      else
        updateWhere s (fun j => j.id == id)
          (fun j => { j with status := .failed, error := some err, updated_at := now,
                             completed_at := some now }) := by
  rw [fail.eq_def, hget]

theorem inv_fail {s : Store} (h : Inv s) (id err : String) (now : Nat) :
    Inv (fail s id err now) := by
  rcases h with ⟨hok, hnd⟩
  cases hget : getJob s id with
  | none => rw [fail_eq_of_getJob_none hget]; exact ⟨hok, hnd⟩
  | some row =>
    have hrowmem : row ∈ s := List.mem_of_find?_eq_some hget
    have hrowid : row.id = id := by simpa using List.find?_some hget
    rw [fail_eq_of_getJob_some hget]
    by_cases hlt : row.attempts < row.max_attempts
    · rw [if_pos hlt]
      refine ⟨?_, hnd.updateWhere fun j => rfl⟩
      apply jobOK_updateWhere hok
      intro j hj hp hOK
      have hid : j.id = id := by simpa using hp
      have hjrow : j = row := eq_of_mem_of_id_eq hnd hj hrowmem (by rw [hid, hrowid])
      subst hjrow
      exact ⟨Nat.le_of_lt hlt, fun _ => hlt⟩
    · rw [if_neg hlt]
      refine ⟨?_, hnd.updateWhere fun j => rfl⟩
      apply jobOK_updateWhere hok
      intro j hj hp hOK
      exact ⟨hOK.1, fun hcon => by simp at hcon⟩

theorem inv_cancel {s : Store} (h : Inv s) (id : String) (now : Nat) :
    Inv (cancel s id now).2 := by
  rcases h with ⟨hok, hnd⟩
  refine ⟨?_, hnd.updateWhere fun j => rfl⟩
  apply jobOK_updateWhere hok
  intro j hj hp hOK
  exact ⟨hOK.1, fun hcon => by simp at hcon⟩

theorem inv_cleanup {s : Store} (h : Inv s) (cutoff : Nat) :
    Inv (cleanup_old_jobs s cutoff).2 := by
  rcases h with ⟨hok, hnd⟩
  refine ⟨?_, hnd.filterJobs _⟩
  intro j hj
  exact hok j (List.mem_filter.mp hj).1

theorem inv_step {m : Nat} (hm : 1 ≤ m) {s : Store} (h : Inv s) (op : Op) :
    Inv (step m s op) := by
  cases op with
  | enqueue id img gt now => exact inv_enqueue h hm id img gt now
  | dequeue now => exact inv_dequeue h now
  | complete id r now => exact inv_complete h id r now
  | fail id e now => exact inv_fail h id e now
  | cancel id now => exact inv_cancel h id now
  | cleanup cutoff => exact inv_cleanup h cutoff

theorem inv_run (m : Nat) (hm : 1 ≤ m) (ops : List Op) : Inv (run m ops) := by
  have hall : ∀ (l : List Op) (s : Store), Inv s → Inv (l.foldl (step m) s) := by
    intro l
    induction l with
    | nil => intro s hs; exact hs
    | cons op t ih => intro s hs; exact ih _ (inv_step hm hs op)
  exact hall ops [] ⟨fun j hj => absurd hj (List.not_mem_nil j), by simp [IdsNodup]⟩

theorem selectPending_eq_none {s : Store} (h : selectPending s = none) :
    ∀ j ∈ s, j.status ≠ .pending := by
  rw [selectPending] at h
  rcases hfil : s.filter (fun j => j.status == Status.pending) with _ | ⟨x, xs⟩
  · intro j hj hp
    have hmem : j ∈ s.filter (fun j => j.status == Status.pending) :=
      List.mem_filter.mpr ⟨hj, by simp [hp]⟩
    rw [hfil] at hmem; cases hmem
  · rw [hfil] at h; cases h

theorem dequeue_eq_of_selectPending_none {s : Store} (hsel : selectPending s = none)
    (now : Nat) : dequeue s now = (none, s) := by
  rw [dequeue.eq_def, hsel]

theorem dequeue_eq_of_selectPending_some {s : Store} {row : Job}
    (hsel : selectPending s = some row) (now : Nat) :
    dequeue s now = (some (jobView row), dequeueUpdate s row.id now) := by
  rw [dequeue.eq_def, hsel]

theorem complete_spec {s : Store} (hnd : IdsNodup s) {j : Job} (hj : j ∈ s)
    (r : VResult) (t : Nat) :
    ∀ k ∈ complete s j.id r t, k.id = j.id →
      k = { j with status := .completed, result := some r, error := none,
                   updated_at := t, completed_at := some t } := by
  intro k hk hkid
  rcases mem_updateWhere hk with ⟨orig, horig, he⟩
  by_cases hcond : (orig.id == j.id) = true
  · rw [if_pos hcond] at he
    subst he
    have horigj : orig = j := eq_of_mem_of_id_eq hnd horig hj (by simpa using hcond)
    rw [horigj]
  · rw [if_neg hcond] at he
    subst he
    exact absurd (beq_iff_eq.mpr hkid) hcond

theorem fail_spec {s : Store} (hnd : IdsNodup s) {j : Job} (hj : j ∈ s)
    (e : String) (t : Nat) :
    ∀ k ∈ fail s j.id e t, k.id = j.id →
      k = if j.attempts < j.max_attempts then
            { j with status := .pending, error := some e, updated_at := t }
          else
            { j with status := .failed, error := some e, updated_at := t,
                     completed_at := some t } := by
  have hget : getJob s j.id = some j := getJob_eq_some_of_mem hnd hj
  intro k hk hkid
  rw [fail_eq_of_getJob_some hget] at hk
  by_cases hlt : j.attempts < j.max_attempts
  · rw [if_pos hlt] at hk
    rw [if_pos hlt]
    rcases mem_updateWhere hk with ⟨orig, horig, he⟩
    by_cases hcond : (orig.id == j.id) = true
    · rw [if_pos hcond] at he
      subst he
      have horigj : orig = j := eq_of_mem_of_id_eq hnd horig hj (by simpa using hcond)
      rw [horigj]
    · rw [if_neg hcond] at he
      subst he
      exact absurd (beq_iff_eq.mpr hkid) hcond
  · rw [if_neg hlt] at hk
    rw [if_neg hlt]
    rcases mem_updateWhere hk with ⟨orig, horig, he⟩
    by_cases hcond : (orig.id == j.id) = true
    · rw [if_pos hcond] at he
      subst he
      have horigj : orig = j := eq_of_mem_of_id_eq hnd horig hj (by simpa using hcond)
      rw [horigj]
    · rw [if_neg hcond] at he
      subst he
      exact absurd (beq_iff_eq.mpr hkid) hcond

theorem cancel_spec_pending {s : Store} (hnd : IdsNodup s) {j : Job} (hj : j ∈ s)
    (hp : j.status = .pending) (t : Nat) :
    (cancel s j.id t).1 = true ∧
      ∀ k ∈ (cancel s j.id t).2, k.id = j.id →
        k = { j with status := .cancelled, updated_at := t } := by
  constructor
  · have hpos : 0 < s.countP (fun k => k.id == j.id && k.status == Status.pending) := by
      rw [List.countP_pos_iff]
      exact ⟨j, hj, by simp [hp]⟩
    simp [cancel, hpos]
  · intro k hk hkid
    rcases mem_updateWhere hk with ⟨orig, horig, he⟩
    by_cases hcond : (orig.id == j.id && orig.status == Status.pending) = true
    · rw [if_pos hcond] at he
      subst he
      have hoid : orig.id = j.id := by
        have hand := (Bool.and_eq_true _ _).mp hcond
        simpa using hand.1
      have horigj : orig = j := eq_of_mem_of_id_eq hnd horig hj hoid
      rw [horigj]
    · rw [if_neg hcond] at he
      have horigj : orig = j := eq_of_mem_of_id_eq hnd horig hj (he ▸ hkid)
      exact absurd (by simp [horigj, hp]) hcond

theorem cancel_spec_not_pending {s : Store} (hnd : IdsNodup s) {j : Job} (hj : j ∈ s)
    (hp : j.status ≠ .pending) (t : Nat) :
    (cancel s j.id t).1 = false ∧ (cancel s j.id t).2 = s := by
  have hfalse : ∀ k ∈ s, (k.id == j.id && k.status == Status.pending) = false := by
    intro k hk
    by_cases hkid : (k.id == j.id) = true
    · have hkj : k = j := eq_of_mem_of_id_eq hnd hk hj (by simpa using hkid)
      subst hkj
      simp [beq_eq_false_iff_ne.mpr hp]
    · simp only [Bool.and_eq_false_iff]
      exact Or.inl (by simpa using hkid)
  constructor
  · have hzero : s.countP (fun k => k.id == j.id && k.status == Status.pending) = 0 := by
      rw [List.countP_eq_zero]
      intro a ha
      simp [hfalse a ha]
    simp [cancel, hzero]
  · exact updateWhere_eq_self hfalse

/-- C7: `QueueManager.cancel` returns `true` and sets the job's status to
`cancelled` (stamping `updated_at`) exactly when the job is currently
`pending`; called on a job in any other status (`processing`, `completed`,
`failed`, or already `cancelled`) it returns `false` and leaves the whole
table entirely unchanged. -/
theorem cancel_only_pending {s : Store} (hnd : IdsNodup s) {j : Job} (hj : j ∈ s)
    (t : Nat) :
    (j.status = .pending →
      (cancel s j.id t).1 = true ∧
        ∀ k ∈ (cancel s j.id t).2, k.id = j.id →
          k = { j with status := .cancelled, updated_at := t }) ∧
    (j.status ≠ .pending →
      (cancel s j.id t).1 = false ∧ (cancel s j.id t).2 = s) :=
  ⟨fun hp => cancel_spec_pending hnd hj hp t,
   fun hp => cancel_spec_not_pending hnd hj hp t⟩

/-- Witness for C7 on one-row tables: cancelling a pending job returns `true`;
cancelling a processing job returns `false` and changes nothing. -/
theorem cancel_only_pending_witness :
    (cancel [pendingJob] "a" 7).1 = true ∧
      (cancel [processingJob] "b" 7).2 = [processingJob] := by
  constructor
  · exact ((@cancel_only_pending [pendingJob] (by decide) pendingJob (by decide) 7).1
      (by decide)).1
  · exact ((@cancel_only_pending [processingJob] (by decide) processingJob (by decide) 7).2
      (by decide)).2

/-- C3 counterexample: a job in the terminal status `cancelled` is moved to
`completed` by a subsequent `complete` call, because `complete`'s `UPDATE`
has no status check in its `WHERE` clause. -/
theorem complete_overwrites_cancelled :
    cancelledJob.status = Status.cancelled ∧
    complete [cancelledJob] "c" { status := "COMPLIANT", error := none } 9 =
      [{ cancelledJob with status := Status.completed,
                           result := some { status := "COMPLIANT", error := none },
                           updated_at := 9, completed_at := some 9 }] := by decide

/-- C3 (amended): for a job in a terminal status, a subsequent `cancel`
returns `false` and leaves the table unchanged, but `complete` and `fail` do
not guard on the current status: `complete` moves the job to `completed`, and
`fail` moves it back to `pending` while `attempts < max_attempts` (to
`failed` otherwise).  Deletion by the retention sweep remains possible. -/
theorem terminal_status_frame {s : Store} (hnd : IdsNodup s) {j : Job} (hj : j ∈ s)
    (hterm : j.status.isTerminal = true) (r : VResult) (e : String) (t : Nat) :
    ((cancel s j.id t).1 = false ∧ (cancel s j.id t).2 = s) ∧
    (∀ k ∈ complete s j.id r t, k.id = j.id → k.status = Status.completed) ∧
    (∀ k ∈ fail s j.id e t, k.id = j.id →
      k.status = if j.attempts < j.max_attempts then Status.pending else Status.failed) := by
  have hnp : j.status ≠ .pending := by
    intro hp
    rw [hp] at hterm
    exact absurd hterm (by decide)
  refine ⟨cancel_spec_not_pending hnd hj hnp t, ?_, ?_⟩
  · intro k hk hkid
    rw [complete_spec hnd hj r t k hk hkid]
  · intro k hk hkid
    by_cases hlt : j.attempts < j.max_attempts
    · rw [fail_spec hnd hj e t k hk hkid, if_pos hlt, if_pos hlt]
    · rw [fail_spec hnd hj e t k hk hkid, if_neg hlt, if_neg hlt]

/-- Witness for C3 (amended) at a cancelled job: `cancel` leaves the table
unchanged, and `fail` (with one attempt left) overwrites the terminal status
back to `pending`. -/
theorem terminal_status_frame_witness :
    (cancel [cancelledJob] "c" 9).2 = [cancelledJob] ∧
      ∀ k ∈ fail [cancelledJob] "c" "late failure" 9, k.id = "c" →
        k.status = Status.pending := by
  constructor
  · exact (@terminal_status_frame [cancelledJob] (by decide) cancelledJob (by decide)
      (by decide) { status := "X", error := none } "late failure" 9).1.2
  · intro k hk hkid
    have h := (@terminal_status_frame [cancelledJob] (by decide) cancelledJob (by decide)
      (by decide) { status := "X", error := none } "late failure" 9).2.2 k hk hkid
    simpa using h

/-- C5 counterexample: `QueueManager.cleanup_old_jobs` deletes an old
cancelled job whose `completed_at` was never set (`cancel` does not stamp
it), so a job whose `completed_at` is not older than the window — it does not
even exist — is deleted: the code filters on `updated_at` instead. -/
theorem cleanup_deletes_job_without_completed_at :
    oldCancelledRow.completed_at = none ∧
    oldCancelledRow.status.isTerminal = true ∧
    cleanup_old_jobs [oldCancelledRow] 10 = (1, []) := by decide

/-- C5 (amended): `QueueManager.cleanup_old_jobs` deletes a job if and only
if it is terminal and its `updated_at` (not `completed_at`) is older than the
cutoff, and the count it returns plus the surviving rows add up to the whole
table; `JobManager.cleanup_old_jobs` deletes a job iff it is terminal and
`completed_at` is set and older than the cutoff.  In both stores, `pending`
and `processing` jobs are never deleted regardless of age. -/
theorem cleanup_spec (s : Store) (cutoff : Nat) {j : Job} (hj : j ∈ s)
    (bs : List JobManager.BatchJob) {b : JobManager.BatchJob} (hb : b ∈ bs) :
    (j ∈ (cleanup_old_jobs s cutoff).2 ↔
      ¬(j.status.isTerminal = true ∧ j.updated_at < cutoff)) ∧
    ((cleanup_old_jobs s cutoff).1 + ((cleanup_old_jobs s cutoff).2).length = s.length) ∧
    (b ∈ (JobManager.cleanup_old_jobs bs cutoff).2 ↔
      ¬(b.status.isTerminal = true ∧ ∃ u, b.completed_at = some u ∧ u < cutoff)) ∧
    ((j.status = .pending ∨ j.status = .processing) →
      j ∈ (cleanup_old_jobs s cutoff).2) := by
  have h1 : j ∈ (cleanup_old_jobs s cutoff).2 ↔
      ¬(j.status.isTerminal = true ∧ j.updated_at < cutoff) := by
    simp only [cleanup_old_jobs]
    rw [List.mem_filter]
    simp [hj, qmExpired]
    cases hterm : j.status.isTerminal <;> simp [hterm]
  refine ⟨h1, ?_, ?_, ?_⟩
  · have hlen : ∀ (l : Store),
        (l.filter (fun x => qmExpired x cutoff)).length +
          (l.filter (fun x => !(qmExpired x cutoff))).length = l.length := by
      intro l
      induction l with
      | nil => rfl
      | cons a t ih =>
        by_cases ha : qmExpired a cutoff = true
        · simp only [List.filter_cons, ha]
          simp only [Bool.not_true, Bool.false_eq_true, if_false, if_true, List.length_cons]
          omega
        · have ha' : qmExpired a cutoff = false := by simpa using ha
          simp only [List.filter_cons, ha']
          simp only [Bool.not_false, Bool.false_eq_true, if_false, if_true, List.length_cons]
          omega
    exact hlen s
  · simp only [JobManager.cleanup_old_jobs]
    rw [List.mem_filter]
    cases hc : b.completed_at with
    | none => simp [hb, JobManager.expired, hc]
    | some u =>
      simp [hb, JobManager.expired, hc]
      cases hterm : b.status.isTerminal <;> simp [hterm]
  · intro hstat
    rcases hstat with h | h <;>
      exact List.mem_filter.mpr ⟨hj, by simp [qmExpired, h, Status.isTerminal]⟩

/-- Witness for C5 (amended): an aged pending job survives the queue sweep,
and a completed batch job older than the cutoff is gone from the file
store. -/
theorem cleanup_spec_witness :
    pendingJob ∈ (cleanup_old_jobs [pendingJob] 100).2 ∧
      ¬batchDone ∈ (JobManager.cleanup_old_jobs [batchDone] 100).2 := by
  constructor
  · exact (@cleanup_spec [pendingJob] 100 pendingJob (by decide) [batchDone] batchDone
      (by decide)).2.2.2 (Or.inl (by decide))
  · intro hmem
    have h := (@cleanup_spec [pendingJob] 100 pendingJob (by decide) [batchDone] batchDone
      (by decide)).2.2.1.mp hmem
    exact h (by decide)

/-- C6 counterexample: after job A (created at tick 1) fails and is requeued
with `updated_at = 4`, and a newer job B has been pending since
`created_at = 3`, the next `dequeue` deterministically claims A again — the
requeued job is guaranteed to be retried before the newer arrival, so it does
not re-enter the queue at its new `updated_at`. -/
theorem requeued_claimed_before_newer :
    run 3 requeueScenario =
      [requeuedA,
       { id := "B", status := .pending, attempts := 0, max_attempts := 3, image_path := "q",
         ground_truth := none, result := none, error := none, created_at := 3,
         updated_at := 3, completed_at := none }] ∧
    requeuedA.updated_at = 4 ∧
    claimedId (dequeue (run 3 requeueScenario) 5) = some "A" := by decide

/-- C6 (amended): `dequeue` orders pending jobs by `created_at` alone; the
`fail` requeue keeps the job's original `created_at` and only rewrites
`updated_at`, which the claim order ignores.  A requeued pending job whose
`created_at` is strictly older than every other pending job's is therefore
always the next one claimed — it does not compete with newer arrivals at its
new `updated_at`. -/
theorem dequeue_claims_oldest_created {s : Store} {j : Job} (hj : j ∈ s)
    (hp : j.status = .pending)
    (hmin : ∀ k ∈ s, k.status = .pending → k.id ≠ j.id → j.created_at < k.created_at)
    (now : Nat) :
    claimedId (dequeue s now) = some j.id := by
  cases hsel : selectPending s with
  | none => exact absurd hp (selectPending_eq_none hsel j hj)
  | some r =>
    rcases selectPending_eq_some hsel with ⟨hrmem, hrp, hrmin⟩
    have hr : r.id = j.id := by
      by_contra hne
      have h1 := hmin r hrmem hrp hne
      have h2 := hrmin j hj hp
      omega
    rw [dequeue_eq_of_selectPending_some hsel]
    simp [claimedId, jobView, hr]

/-- Witness for C6 (amended) on the requeue scenario: the old requeued job A
is the next claim even though B re-entered the pending set more recently. -/
theorem dequeue_claims_oldest_created_witness :
    claimedId (dequeue (run 3 requeueScenario) 5) = some requeuedA.id :=
  @dequeue_claims_oldest_created (run 3 requeueScenario) requeuedA (by decide) (by decide)
    (by decide) 5

/-- C2: for a manager configured with `max_attempts = m ≥ 1` and any sequence
of API calls against an initially empty store, every job's `attempts` never
exceeds its `max_attempts`; and one more API call moves a not-yet-failed
job's record to status `failed` exactly when that call is `fail` on the job's
id while its `attempts` equals its `max_attempts`. -/
theorem attempts_bounded_and_failed_only_at_ceiling (m : Nat) (hm : 1 ≤ m)
    (ops : List Op) :
    (∀ j ∈ run m ops, j.attempts ≤ j.max_attempts) ∧
    (∀ (op : Op), ∀ j ∈ run m ops, j.status ≠ .failed →
      ∀ k ∈ step m (run m ops) op, k.id = j.id →
        (k.status = .failed ↔
          (∃ e t, op = Op.fail j.id e t) ∧ j.attempts = j.max_attempts)) := by
  obtain ⟨hok, hnd⟩ := inv_run m hm ops
  refine ⟨fun j hj => (hok j hj).1, ?_⟩
  intro op j hj hjs k hk hkid
  constructor
  · intro hkf
    cases op with
    | enqueue id' img gt now =>
      simp only [step] at hk
      rw [enqueue] at hk
      split at hk
      · have hkj : k = j := eq_of_mem_of_id_eq hnd hk hj hkid
        rw [hkj] at hkf; exact absurd hkf hjs
      · rcases List.mem_append.mp hk with hk' | hk'
        · have hkj : k = j := eq_of_mem_of_id_eq hnd hk' hj hkid
          rw [hkj] at hkf; exact absurd hkf hjs
        · rcases List.mem_singleton.mp hk' with rfl
          simp at hkf
    | dequeue now =>
      simp only [step] at hk
      cases hsel : selectPending (run m ops) with
      | none =>
        rw [dequeue_eq_of_selectPending_none hsel] at hk
        have hkj : k = j := eq_of_mem_of_id_eq hnd hk hj hkid
        rw [hkj] at hkf; exact absurd hkf hjs
      | some r =>
        rw [dequeue_eq_of_selectPending_some hsel] at hk
        rcases mem_updateWhere hk with ⟨orig, horig, he⟩
        by_cases hcond : (orig.id == r.id) = true
        · rw [if_pos hcond] at he; rw [he] at hkf; simp at hkf
        · rw [if_neg hcond] at he
          rw [he] at hkid hkf
          have horigj : orig = j := eq_of_mem_of_id_eq hnd horig hj hkid
          rw [horigj] at hkf; exact absurd hkf hjs
    | complete id' r now =>
      simp only [step] at hk
      rcases mem_updateWhere hk with ⟨orig, horig, he⟩
      by_cases hcond : (orig.id == id') = true
      · rw [if_pos hcond] at he; rw [he] at hkf; simp at hkf
      · rw [if_neg hcond] at he
        rw [he] at hkid hkf
        have horigj : orig = j := eq_of_mem_of_id_eq hnd horig hj hkid
        rw [horigj] at hkf; exact absurd hkf hjs
    | fail id' e now =>
      simp only [step] at hk
      cases hget : getJob (run m ops) id' with
      | none =>
        rw [fail_eq_of_getJob_none hget] at hk
        have hkj : k = j := eq_of_mem_of_id_eq hnd hk hj hkid
        rw [hkj] at hkf; exact absurd hkf hjs
      | some row =>
        rw [fail_eq_of_getJob_some hget] at hk
        by_cases hlt : row.attempts < row.max_attempts
        · rw [if_pos hlt] at hk
          rcases mem_updateWhere hk with ⟨orig, horig, he⟩
          by_cases hcond : (orig.id == id') = true
          · rw [if_pos hcond] at he; rw [he] at hkf; simp at hkf
          · rw [if_neg hcond] at he
            rw [he] at hkid hkf
            have horigj : orig = j := eq_of_mem_of_id_eq hnd horig hj hkid
            rw [horigj] at hkf; exact absurd hkf hjs
        · rw [if_neg hlt] at hk
          rcases mem_updateWhere hk with ⟨orig, horig, he⟩
          by_cases hcond : (orig.id == id') = true
          · rw [if_pos hcond] at he
            rw [he] at hkid
            have horigj : orig = j := eq_of_mem_of_id_eq hnd horig hj hkid
            have hid' : id' = j.id := by
              have h1 : orig.id = id' := by simpa using hcond
              rw [← h1, horigj]
            have hrowj : row = j := by
              have hjid : getJob (run m ops) j.id = some j := getJob_eq_some_of_mem hnd hj
              rw [hid', hjid] at hget
              exact (Option.some.inj hget).symm
            refine ⟨⟨e, now, by rw [hid']⟩, ?_⟩
            have hle := (hok j hj).1
            rw [hrowj] at hlt
            omega
          · rw [if_neg hcond] at he
            rw [he] at hkid hkf
            have horigj : orig = j := eq_of_mem_of_id_eq hnd horig hj hkid
            rw [horigj] at hkf; exact absurd hkf hjs
    | cancel id' now =>
      simp only [step] at hk
      rcases mem_updateWhere hk with ⟨orig, horig, he⟩
      by_cases hcond : (orig.id == id' && orig.status == Status.pending) = true
      · rw [if_pos hcond] at he; rw [he] at hkf; simp at hkf
      · rw [if_neg hcond] at he
        rw [he] at hkid hkf
        have horigj : orig = j := eq_of_mem_of_id_eq hnd horig hj hkid
        rw [horigj] at hkf; exact absurd hkf hjs
    | cleanup cutoff =>
      simp only [step] at hk
      have hk' : k ∈ run m ops := (List.mem_filter.mp hk).1
      have hkj : k = j := eq_of_mem_of_id_eq hnd hk' hj hkid
      rw [hkj] at hkf; exact absurd hkf hjs
  · rintro ⟨⟨e, t, rfl⟩, hceil⟩
    simp only [step] at hk
    have h := fail_spec hnd hj e t k hk hkid
    rw [if_neg (by omega)] at h
    rw [h]

theorem classify_cases (ename emsg : String) :
    classify_error_type ename emsg = "timeout" ∨
    classify_error_type ename emsg = "connection" ∨
    classify_error_type ename emsg = "error" := by
  rw [classify_error_type]
  split
  · exact Or.inl rfl
  · split
    · exact Or.inr (Or.inl rfl)
    · exact Or.inr (Or.inr rfl)

theorem acquirePolls_some_bounds (avail : Nat → Bool) :
    ∀ (n t u : Nat), acquirePolls avail t n = some u →
      t ≤ u ∧ u < t + 2 * n ∧ avail u = true ∧ (u - t) % 2 = 0 := by
  intro n
  induction n with
  | zero => intro t u h; cases h
  | succ n ih =>
    intro t u h
    simp only [acquirePolls, pollIntervalTenths] at h
    by_cases ha : avail t = true
    · rw [if_pos ha] at h
      injection h with h
      subst h
      exact ⟨Nat.le_refl _, by omega, ha, by omega⟩
    · rw [if_neg ha] at h
      rcases ih (t + 2) u h with ⟨h1, h2, h3, h4⟩
      exact ⟨by omega, by omega, h3, by omega⟩

theorem extract_text_sentinel_down {env : OcrEnv} (hs : env.sentinelHealthy = false) :
    extract_text env =
      ({ success := false, raw_text := none,
         error := some "Ollama model not ready (sentinel /etc/ollama_health/HEALTHY absent — cron pre-warm pending)",
         error_type := none }, false) := by
  rw [extract_text, if_pos hs]

theorem extract_text_busy {env : OcrEnv} (hs : env.sentinelHealthy = true)
    (hacq : acquirePolls env.lockAvail env.startTime lockWaitPolls = none) :
    extract_text env =
      ({ success := false, raw_text := none,
         error := some "Ollama is busy. Please retry shortly.",
         error_type := some "busy" }, false) := by
  rw [extract_text, if_neg (by simp [hs]), hacq]

theorem extract_text_locked {env : OcrEnv} (hs : env.sentinelHealthy = true) {u : Nat}
    (hacq : acquirePolls env.lockAvail env.startTime lockWaitPolls = some u) :
    extract_text env = (do_extract env, false) := by
  rw [extract_text, if_neg (by simp [hs]), hacq]

theorem do_extract_missing_image {env : OcrEnv} (himg : env.imageExists = false) :
    do_extract env =
      { success := false, raw_text := none,
        error := some ("Image not found: " ++ env.image_path), error_type := none } := by
  rw [do_extract, if_pos himg]

theorem do_extract_ok {env : OcrEnv} (himg : env.imageExists = true) {text : String}
    (hb : env.backend = .ok text) :
    do_extract env =
      { success := true, raw_text := some text, error := none, error_type := none } := by
  rw [do_extract, if_neg (by simp [himg]), hb]

theorem do_extract_raises_eq {env : OcrEnv} (himg : env.imageExists = true)
    {ename emsg : String} (hb : env.backend = .raises ename emsg) :
    do_extract env = raisesDict env ename emsg := by
  rw [do_extract, if_neg (by simp [himg]), hb]

theorem do_extract_raises_spec {env : OcrEnv} (himg : env.imageExists = true)
    {ename emsg : String} (hb : env.backend = .raises ename emsg) :
    (do_extract env).success = false ∧
    (do_extract env).error_type = some (classify_error_type ename emsg) ∧
    Option.isSome (do_extract env).error = true := by
  rw [do_extract_raises_eq himg hb, raisesDict]
  by_cases h1 : classify_error_type ename emsg = "timeout"
  · rw [if_pos h1]
    exact ⟨rfl, by rw [h1], rfl⟩
  · rw [if_neg h1]
    by_cases h2 : classify_error_type ename emsg = "connection"
    · rw [if_pos h2]
      exact ⟨rfl, by rw [h2], rfl⟩
    · rw [if_neg h2]
      have h3 : classify_error_type ename emsg = "error" := by
        rcases classify_cases ename emsg with h | h | h
        · exact absurd h h1
        · exact absurd h h2
        · exact h
      exact ⟨rfl, by rw [h3], rfl⟩

/-- C8 counterexample: a connect-phase failure that exhausts the 10 s connect
bound raises `httpx.ConnectTimeout`, and the classification maps that
exception name to `error_type = "timeout"`, not `"connection"` — the timeout
check matches the name `ConnectTimeout` before the connection check runs. -/
theorem connect_timeout_classified_timeout :
    classify_error_type "ConnectTimeout" "timed out" = "timeout" ∧
    classify_error_type "ConnectTimeout" "timed out" ≠ "connection" := by decide

/-- C8 (amended): a connect failure raising `httpx.ConnectError` (backend
unreachable or refusing) is classified `"connection"` — provided its message
does not itself contain `"timeout"` — while a connect failure that exhausts
the connect bound (`httpx.ConnectTimeout`) is classified `"timeout"`.  The
connect bound is the fixed 10 s, independent of and shorter than the default
60 s first-output (read) bound. -/
theorem connect_failure_classification (emsg : String)
    (h : strContains (strLower emsg) "timeout" = false) :
    classify_error_type "ConnectError" emsg = "connection" ∧
    classify_error_type "ConnectTimeout" emsg = "timeout" ∧
    connectTimeoutSeconds = 10 ∧
    connectTimeoutSeconds < defaultOllamaTimeoutSeconds := by
  refine ⟨?_, ?_, rfl, by decide⟩
  · have e1 : strContains "ConnectError" "ReadTimeout" = false := by decide
    have e2 : strContains "ConnectError" "ConnectTimeout" = false := by decide
    have e3 : strContains "ConnectError" "TimeoutException" = false := by decide
    have e4 : strContains "ConnectError" "ConnectError" = true := by decide
    rw [classify_error_type, if_neg (by simp [e1, e2, e3, h]), if_pos (by simp [e4])]
  · have f2 : strContains "ConnectTimeout" "ConnectTimeout" = true := by decide
    rw [classify_error_type, if_pos (by simp [f2])]

/-- Witness for C8 (amended) at a concrete refused-connection message. -/
theorem connect_failure_classification_witness :
    classify_error_type "ConnectError" "refused" = "connection" ∧
    classify_error_type "ConnectTimeout" "refused" = "timeout" ∧
    connectTimeoutSeconds = 10 ∧
    connectTimeoutSeconds < defaultOllamaTimeoutSeconds :=
  connect_failure_classification "refused" (by decide)

/-- C9: the flock wait of `extract_text` never blocks past its deadline: any
successful acquisition happens at one of the fixed 0.2 s poll instants inside
the 30 s window, and if every poll in the window fails the call returns the
fail-fast busy dict (`success = False`, `error_type = "busy"`) instead of a
token. -/
theorem gate_bounded_wait (avail : Nat → Bool) (t0 : Nat) (env : OcrEnv)
    (hs : env.sentinelHealthy = true) (ha : env.lockAvail = avail)
    (ht : env.startTime = t0) :
    (∀ u, acquirePolls avail t0 lockWaitPolls = some u →
      t0 ≤ u ∧ u < t0 + lockWaitTenths ∧ avail u = true ∧
        (u - t0) % pollIntervalTenths = 0) ∧
    (acquirePolls avail t0 lockWaitPolls = none →
      (extract_text env).1.success = false ∧
      (extract_text env).1.error_type = some "busy" ∧
      (extract_text env).1.error = some "Ollama is busy. Please retry shortly.") := by
  constructor
  · intro u h
    rcases acquirePolls_some_bounds avail lockWaitPolls t0 u h with ⟨h1, h2, h3, h4⟩
    have hlp : lockWaitPolls = 150 := rfl
    rw [hlp] at h2
    refine ⟨h1, ?_, h3, ?_⟩
    · have hw : lockWaitTenths = 300 := rfl
      rw [hw]; omega
    · have hp : pollIntervalTenths = 2 := rfl
      rw [hp]; exact h4
  · intro hnone
    have hred := extract_text_busy hs (by rw [ha, ht]; exact hnone)
    rw [hred]
    exact ⟨rfl, rfl, rfl⟩

/-- Witness for C9: with the flock never available, the call comes back with
the busy dict after exhausting the window. -/
theorem gate_bounded_wait_witness :
    (extract_text busyEnv).1.success = false ∧
    (extract_text busyEnv).1.error_type = some "busy" ∧
    (extract_text busyEnv).1.error = some "Ollama is busy. Please retry shortly." :=
  (gate_bounded_wait (fun _ => false) 0 busyEnv rfl rfl rfl).2 (by decide)

/-- C10 counterexample: the unavailability-sentinel dict (and likewise the
missing-image dict) has `success = False` and an error message but carries no
`error_type` key at all, so not every failure dict classifies the error. -/
theorem extract_text_missing_error_type :
    ((extract_text sentinelDownEnv).1.success = false ∧
      (extract_text sentinelDownEnv).1.error_type = none ∧
      Option.isSome (extract_text sentinelDownEnv).1.error = true) ∧
    ((extract_text missingImageEnv).1.success = false ∧
      (extract_text missingImageEnv).1.error_type = none) := by decide

/-- C10 (amended): `extract_text` is total — every environment yields a
result dict (no propagated exception) and the flock is not held on any return
path; every failure dict carries an error message; lock-wait exhaustion is
classified `error_type = "busy"` and a backend exception is classified by
`classify_error_type` (`timeout`, `connection` or `error`), while the
sentinel-absent and missing-image dicts carry no `error_type` key. -/
theorem extract_text_spec (env : OcrEnv) :
    ((extract_text env).2 = false) ∧
    ((extract_text env).1.success = false →
      Option.isSome ((extract_text env).1.error) = true) ∧
    (env.sentinelHealthy = false →
      (extract_text env).1.success = false ∧ (extract_text env).1.error_type = none) ∧
    (env.sentinelHealthy = true →
      acquirePolls env.lockAvail env.startTime lockWaitPolls = none →
      (extract_text env).1.success = false ∧
        (extract_text env).1.error_type = some "busy") ∧
    (∀ u ename emsg, env.sentinelHealthy = true →
      acquirePolls env.lockAvail env.startTime lockWaitPolls = some u →
      env.imageExists = true → env.backend = .raises ename emsg →
      (extract_text env).1.success = false ∧
        (extract_text env).1.error_type = some (classify_error_type ename emsg)) ∧
    (∀ u, env.sentinelHealthy = true →
      acquirePolls env.lockAvail env.startTime lockWaitPolls = some u →
      env.imageExists = false →
      (extract_text env).1.success = false ∧
        (extract_text env).1.error_type = none) := by
  by_cases hs : env.sentinelHealthy = false
  · rw [extract_text_sentinel_down hs]
    refine ⟨rfl, fun _ => rfl, fun _ => ⟨rfl, rfl⟩, ?_, ?_, ?_⟩
    · intro ht; rw [ht] at hs; cases hs
    · intro u en em ht _ _ _
      rw [ht] at hs; cases hs
    · intro u ht _ _
      rw [ht] at hs; cases hs
  · have hs' : env.sentinelHealthy = true := by simpa using hs
    cases hacq : acquirePolls env.lockAvail env.startTime lockWaitPolls with
    | none =>
      rw [extract_text_busy hs' hacq]
      refine ⟨rfl, fun _ => rfl, ?_, fun _ _ => ⟨rfl, rfl⟩, ?_, ?_⟩
      · intro hsf; rw [hsf] at hs'; cases hs'
      · intro u en em _ hsome
        cases hsome
      · intro u _ hsome
        cases hsome
    | some u0 =>
      rw [extract_text_locked hs' hacq]
      by_cases himg : env.imageExists = false
      · rw [do_extract_missing_image himg]
        refine ⟨rfl, fun _ => rfl, ?_, ?_, ?_, fun _ _ _ _ => ⟨rfl, rfl⟩⟩
        · intro hsf; rw [hsf] at hs'; cases hs'
        · intro _ hnone; cases hnone
        · intro u en em _ _ himg' _
          rw [himg'] at himg; cases himg
      · have himg' : env.imageExists = true := by simpa using himg
        cases hb : env.backend with
        | ok text =>
          rw [do_extract_ok himg' hb]
          refine ⟨rfl, ?_, ?_, ?_, ?_, ?_⟩
          · intro hsf; cases hsf
          · intro hsf; rw [hsf] at hs'; cases hs'
          · intro _ hnone; cases hnone
          · intro u en em _ _ _ hbr; cases hbr
          · intro u _ _ hif; rw [hif] at himg'; cases himg'
        | raises ename emsg =>
          rcases do_extract_raises_spec himg' hb with ⟨hsucc, htype, herr⟩
          refine ⟨rfl, fun _ => herr, ?_, ?_, ?_, ?_⟩
          · intro hsf; rw [hsf] at hs'; cases hs'
          · intro _ hnone; cases hnone
          · intro u en em _ _ _ hbr
            injection hbr with hbe hbm
            subst hbe; subst hbm
            exact ⟨hsucc, htype⟩
          · intro u _ _ hif; rw [hif] at himg'; cases himg'

/-- Witness for C10 (amended): on the sentinel-absent environment the lock is
not held on return and the dict carries no `error_type`. -/
theorem extract_text_spec_witness :
    (extract_text sentinelDownEnv).2 = false ∧
      (extract_text sentinelDownEnv).1.error_type = none :=
  ⟨(extract_text_spec sentinelDownEnv).1,
   ((extract_text_spec sentinelDownEnv).2.2.1 rfl).2⟩

/-- C1: evidence of the divergence.  From a table with exactly one pending
job, the interleaving in which both `dequeue` callers run their `SELECT`
before either runs its `UPDATE` — reachable because the `SELECT` executes
outside the `UPDATE`'s write transaction and the `UPDATE` does not re-check
`status = 'pending'` — makes both callers return the same job id, and leaves
the job's attempts counter incremented twice for a single job. -/
theorem dequeue_select_race_double_claim :
    dequeue_select_race [pendingJob] 1 2 =
      (some { pendingJob with status := .processing, attempts := 1 },
       some { pendingJob with status := .processing, attempts := 1 },
       [{ pendingJob with status := .processing, attempts := 2, updated_at := 2 }]) ∧
    claimedId ((dequeue_select_race [pendingJob] 1 2).1,
               (dequeue_select_race [pendingJob] 1 2).2.2) =
      claimedId ((dequeue_select_race [pendingJob] 1 2).2.1,
                 (dequeue_select_race [pendingJob] 1 2).2.2) := by decide

/-- C4: evidence of the divergence.  On a claimed job with attempts left
(1 of 3), an inference timeout does not raise: `extract_text` returns a
`success = False` dict classified `"timeout"`, `validate_label` converts it
into an `ERROR` result dict instead of raising, so the worker's `try` branch
calls `queue.complete` — the job ends `completed` with an error payload and
never returns to `pending`, although the `fail` path the claim requires would
have requeued it. -/
theorem timeout_recorded_as_completed :
    (extract_text readTimeoutEnv).1.error_type = some "timeout" ∧
    validate_label_result (extract_text readTimeoutEnv).1
        { status := "COMPLIANT", error := none } = timeoutErrorResult ∧
    run 3 claimOps = [claimedJobA] ∧
    claimedJobA.attempts = 1 ∧ claimedJobA.max_attempts = 3 ∧
    worker_report (run 3 claimOps) "a"
        (ProcOutcome.ret (validate_label_result (extract_text readTimeoutEnv).1
          { status := "COMPLIANT", error := none })) 2 =
      [completedWithError] ∧
    completedWithError.status = Status.completed ∧
    completedWithError.result = some timeoutErrorResult ∧
    fail (run 3 claimOps) "a" "Ollama request timed out after 12s. Please retry." 2 =
      [{ claimedJobA with status := .pending,
                          error := some "Ollama request timed out after 12s. Please retry.",
                          updated_at := 2 }] := by decide

/-- Witness for C2 with `max_attempts = 1`: the claimed job holds
`attempts = 1 ≤ 1`, and a `fail` call at the ceiling marks exactly its record
`failed`. -/
theorem attempts_bounded_and_failed_only_at_ceiling_witness :
    claimedOne.attempts ≤ claimedOne.max_attempts ∧ failedOne.status = Status.failed := by
  have h := attempts_bounded_and_failed_only_at_ceiling 1 (by decide) oneAttemptOps
  constructor
  · exact h.1 claimedOne (by decide)
  · exact (h.2 (Op.fail "a" "boom" 2) claimedOne (by decide) (by decide) failedOne
      (by decide) (by decide)).mpr ⟨⟨"boom", 2, rfl⟩, by decide⟩

end TTB
